import Mathlib

/-!
Shallow embedding of `pkg/pacer/pacer.go` (package `pacer`): a virtual-clock
rate limiter wrapping an `io.Reader` or `io.Writer`.

Modelling conventions:
* Instants (`time.Time`) and durations (`time.Duration`) are nanosecond counts
  carried as `Int`.  Go's `time.Time` zero value (checked by `IsZero`) is
  modelled by `Option Int` being `none`.
* Go's `int` is 64-bit here; arithmetic that can overflow in the source
  (the product `int(time.Second) * cc` and the quotient) is wrapped to the
  signed 64-bit range explicitly via `wrap64`.  Go's `/` on integers is
  truncated division (`Int.tdiv`); division by zero panics at run time, which
  the model surfaces as `none`.
* `time.Sleep` with a non-positive argument returns immediately; the model
  records the slept duration (0 when no sleep happens), and the driver for
  multi-call traces advances the modelled wall clock by exactly that amount.
* The wrapped reader/writer is external: each modelled `Read`/`Write` call
  takes the underlying stream's result for that call (byte count and error)
  as an input.
-/

/-- Reduce an unbounded integer to the signed 64-bit value Go's `int`
arithmetic produces (two's-complement wrap-around). -/
def wrap64 (x : Int) : Int :=
  (x + 2 ^ 63) % 2 ^ 64 - 2 ^ 63

/-- Go 64-bit integer multiplication (wraps on overflow). -/
def goMul64 (a b : Int) : Int :=
  wrap64 (a * b)

/-- Go 64-bit integer division with a nonzero divisor: truncated toward zero,
wrapping on the single overflowing case `MinInt64 / -1`.  (Division by zero
panics in Go and is guarded separately at the call site.) -/
def goQuot64 (a b : Int) : Int :=
  wrap64 (Int.tdiv a b)

/-- `int(time.Second)`: nanoseconds per second. -/
def nsPerSecond : Int := 1000000000

/-- `type Pacer struct { bytesPerSecond int; clock time.Time }`.
`clock = none` models the zero `time.Time` (`clock.IsZero()` true). -/
structure Pacer where
  bytesPerSecond : Int
  clock : Option Int
deriving Repr, DecidableEq

/-- The value of `time.Duration((int(time.Second) * cc) / p.bytesPerSecond)`
from line 31 of `pacer.go`, for a nonzero rate (the `time.Duration`
conversion is the identity on 64-bit integers). -/
def paceDelay (bytesPerSecond cc : Int) : Int :=
  goQuot64 (goMul64 nsPerSecond cc) bytesPerSecond

/-- `func (p *Pacer) pace(cc int)` at wall-clock instant `now`.
Returns `none` when `bytesPerSecond = 0` (the Go code panics with a division
by zero there); otherwise `some (p2, slept)` where `p2` is the updated
receiver and `slept` is the duration passed to `time.Sleep` (0 when
`p.clock.After(now)` is false and no sleep happens). -/
def pace (p : Pacer) (now cc : Int) : Option (Pacer × Int) :=
  if p.bytesPerSecond = 0 then none
  else
    let clock0 := p.clock.getD now
    let clock1 := clock0 + paceDelay p.bytesPerSecond cc
    let slept := if now < clock1 then clock1 - now else 0
    some ({ p with clock := some clock1 }, slept)

/-- `type ReaderPacer struct { Pacer; reader io.Reader }`.  The underlying
reader is external state and is not part of the embedded structure; each
modelled `Read` takes that reader's per-call result as an input. -/
structure ReaderPacer where
  pacer : Pacer
deriving Repr, DecidableEq

/-- `type WriterPacer struct { Pacer; writer io.Writer }`. -/
structure WriterPacer where
  pacer : Pacer
deriving Repr, DecidableEq

/-- `func NewReaderPacer(r io.Reader, rate int) *ReaderPacer`: stores the
rate, leaves the clock at the zero value, and cannot fail. -/
def NewReaderPacer (rate : Int) : ReaderPacer :=
  { pacer := { bytesPerSecond := rate, clock := none } }

/-- `func NewWriterPacer(w io.Writer, rate int) *WriterPacer`. -/
def NewWriterPacer (rate : Int) : WriterPacer :=
  { pacer := { bytesPerSecond := rate, clock := none } }

/-- `func (p *ReaderPacer) Read(b []byte) (int, error)` at instant `now`,
where the underlying `p.reader.Read(b)` returned `(cc, err)` (`err : Option ε`
with `none` for Go's `nil`; `io.EOF` is just one value of `ε`).  The result is
`some (p2, slept, n, e)`: updated wrapper, slept duration, and the returned
`(n, e)` pair; `none` models the division-by-zero panic inside `pace`. -/
def readerRead {ε : Type} (p : ReaderPacer) (now cc : Int) (err : Option ε) :
    Option (ReaderPacer × Int × Int × Option ε) :=
  match err with
  | some e => some (p, 0, cc, some e)
  | none => (pace p.pacer now cc).map fun q => (⟨q.1⟩, q.2, cc, none)

/-- `func (p *WriterPacer) Write(b []byte) (int, error)` at instant `now`.
`blen` is `len(b)` (the requested amount); the underlying
`p.writer.Write(b)` returned `(cc, err)`.  `blen` is carried to show that the
wrapper's behaviour depends only on `cc`, never on the requested length. -/
def writerWrite {ε : Type} (p : WriterPacer) (now blen cc : Int)
    (err : Option ε) : Option (WriterPacer × Int × Int × Option ε) :=
  match err with
  | some e => some (p, 0, cc, some e)
  | none => (pace p.pacer now cc).map fun q => (⟨q.1⟩, q.2, cc, none)

/-- A pacer together with a modelled wall clock, for multi-call traces. -/
structure SysState where
  pacer : Pacer
  now : Int
deriving Repr, DecidableEq

/-- One caller step: wait `w` of external time, then complete a successful
`Read` of `s` bytes through the wrapper (the underlying reader returns
`(s, nil)`); the sleep inside `pace` advances the wall clock exactly. -/
def transferStep (st : SysState) (w s : Int) : Option SysState :=
  (readerRead (ε := Unit) ⟨st.pacer⟩ (st.now + w) s none).map
    fun q => ⟨q.1.pacer, st.now + w + q.2.1⟩

/-- Run a trace of `(wait, size)` caller steps. -/
def runTransfers (st : SysState) : List (Int × Int) → Option SysState
  | [] => some st
  | ws :: rest =>
    match transferStep st ws.1 ws.2 with
    | none => none
    | some st1 => runTransfers st1 rest

/-- Total delay `pace` charges for the sizes of a trace at rate `R`. -/
def delaySum (R : Int) (l : List (Int × Int)) : Int :=
  (l.map fun ws => paceDelay R ws.2).sum

/-- Total number of bytes transferred in a trace. -/
def sizeSum (l : List (Int × Int)) : Int :=
  (l.map fun ws => ws.2).sum

/-- A trace entry is well formed when its wait is non-negative and its size is
a non-negative count whose nanosecond scaling stays in the `int64` range. -/
def goodStep (ws : Int × Int) : Prop :=
  0 ≤ ws.1 ∧ 0 ≤ ws.2 ∧ nsPerSecond * ws.2 ≤ 2 ^ 63 - 1

instance : DecidablePred goodStep := fun ws => by
  unfold goodStep; infer_instance

/-! ## Arithmetic facts about the embedded computations -/

theorem wrap64_eq_self {x : Int} (h1 : -2 ^ 63 ≤ x) (h2 : x < 2 ^ 63) :
    wrap64 x = x := by
  have e63 : (2:Int) ^ 63 = 9223372036854775808 := by norm_num
  have e64 : (2:Int) ^ 64 = 18446744073709551616 := by norm_num
  rw [e63] at h1 h2
  unfold wrap64
  rw [e63, e64, Int.emod_eq_of_lt (by omega) (by omega)]
  omega

theorem nsPerSecond_pos : (0:Int) < nsPerSecond := by norm_num [nsPerSecond]

/-- In the `int64`-representable range the source's wrapped product is the
exact product. -/
theorem goMul64_eq (s : Int) (hs : 0 ≤ s)
    (hrange : nsPerSecond * s ≤ 2 ^ 63 - 1) :
    goMul64 nsPerSecond s = nsPerSecond * s := by
  have h0 : 0 ≤ nsPerSecond * s := mul_nonneg nsPerSecond_pos.le hs
  exact wrap64_eq_self (le_trans (by norm_num) h0)
    (lt_of_le_of_lt hrange (by norm_num))

/-- In the `int64`-representable range the delay of `pacer.go` line 31 is the
exact floor of `10^9 * s / R`. -/
theorem paceDelay_eq (R s : Int) (hR : 0 < R) (hs : 0 ≤ s)
    (hrange : nsPerSecond * s ≤ 2 ^ 63 - 1) :
    paceDelay R s = nsPerSecond * s / R := by
  have h0 : 0 ≤ nsPerSecond * s := mul_nonneg nsPerSecond_pos.le hs
  have hq0 : 0 ≤ nsPerSecond * s / R := Int.ediv_nonneg h0 hR.le
  unfold paceDelay goQuot64
  rw [goMul64_eq s hs hrange, Int.tdiv_eq_ediv h0 hR.le]
  exact wrap64_eq_self (le_trans (by norm_num) hq0)
    (lt_of_le_of_lt (le_trans (Int.ediv_le_self R h0) hrange) (by norm_num))

theorem paceDelay_nonneg (R s : Int) (hR : 0 < R) (hs : 0 ≤ s)
    (hrange : nsPerSecond * s ≤ 2 ^ 63 - 1) :
    0 ≤ paceDelay R s := by
  rw [paceDelay_eq R s hR hs hrange]
  exact Int.ediv_nonneg (mul_nonneg nsPerSecond_pos.le hs) hR.le

/-- The charged delay undershoots the ideal `10^9 * s / R` by less than one
nanosecond. -/
theorem paceDelay_charge_lt (R s : Int) (hR : 0 < R) (hs : 0 ≤ s)
    (hrange : nsPerSecond * s ≤ 2 ^ 63 - 1) :
    nsPerSecond * s < R * (paceDelay R s + 1) := by
  rw [paceDelay_eq R s hR hs hrange]
  have h := Int.lt_ediv_add_one_mul_self (nsPerSecond * s) hR
  linarith [h]

theorem paceDelay_zero (R : Int) : paceDelay R 0 = 0 := by
  unfold paceDelay goMul64 goQuot64
  norm_num [wrap64]

/-! ## Unfolding lemmas for `pace` and the wrappers -/

theorem pace_some (R c now cc : Int) (hR : R ≠ 0) :
    pace ⟨R, some c⟩ now cc =
      some (⟨R, some (c + paceDelay R cc)⟩,
        if now < c + paceDelay R cc then c + paceDelay R cc - now else 0) := by
  simp [pace, hR]

theorem pace_none_eq (R now cc : Int) :
    pace ⟨R, none⟩ now cc = pace ⟨R, some now⟩ now cc := by
  simp [pace]

theorem ite_slept_eq {t d : Int} (hd : 0 ≤ d) :
    (if t < t + d then t + d - t else 0) = d := by
  split_ifs <;> omega

theorem transferStep_eq_pace (st : SysState) (w s : Int) :
    transferStep st w s =
      (pace st.pacer (st.now + w) s).map fun q => ⟨q.1, st.now + w + q.2⟩ := by
  rcases h : pace st.pacer (st.now + w) s with _ | q
  · simp [transferStep, readerRead, h]
  · simp [transferStep, readerRead, h]

/-- Core invariant of a trace run: starting from an initialized clock `c` that
is not ahead of the wall clock, every well-formed trace succeeds, the clock
ends exactly `delaySum` past `c`, and the wall clock never falls behind the
virtual clock. -/
theorem runTransfers_spec (l : List (Int × Int)) : ∀ R c now : Int,
    0 < R → c ≤ now → (∀ ws ∈ l, goodStep ws) →
    ∃ st2, runTransfers ⟨⟨R, some c⟩, now⟩ l = some st2 ∧
      st2.pacer = ⟨R, some (c + delaySum R l)⟩ ∧
      now ≤ st2.now ∧ c + delaySum R l ≤ st2.now := by
  induction l with
  | nil =>
    intro R c now hR hcn _
    exact ⟨⟨⟨R, some c⟩, now⟩, rfl, by simp [delaySum], le_refl _,
      by simpa [delaySum] using hcn⟩
  | cons ws rest ih =>
    intro R c now hR hcn hgood
    obtain ⟨hw, hs, hrange⟩ := hgood ws (List.mem_cons_self ws rest)
    have hd0 : 0 ≤ paceDelay R ws.2 := paceDelay_nonneg R ws.2 hR hs hrange
    have hstep : transferStep ⟨⟨R, some c⟩, now⟩ ws.1 ws.2 =
        some ⟨⟨R, some (c + paceDelay R ws.2)⟩,
          now + ws.1 + (if now + ws.1 < c + paceDelay R ws.2 then
            c + paceDelay R ws.2 - (now + ws.1) else 0)⟩ := by
      rw [transferStep_eq_pace]
      simp [pace_some R c (now + ws.1) ws.2 (ne_of_gt hR)]
    have h1 : c + paceDelay R ws.2 ≤
        now + ws.1 + (if now + ws.1 < c + paceDelay R ws.2 then
          c + paceDelay R ws.2 - (now + ws.1) else 0) := by
      split_ifs <;> omega
    have h2 : now ≤ now + ws.1 + (if now + ws.1 < c + paceDelay R ws.2 then
        c + paceDelay R ws.2 - (now + ws.1) else 0) := by
      split_ifs <;> omega
    obtain ⟨st2, hrun, hpac, hnow, hclk⟩ :=
      ih R (c + paceDelay R ws.2) _ hR h1
        (fun x hx => hgood x (List.mem_cons_of_mem _ hx))
    refine ⟨st2, ?_, ?_, le_trans h2 hnow, ?_⟩
    · rw [runTransfers, hstep]
      exact hrun
    · rw [hpac]
      simp [delaySum, add_assoc]
    · have hsum : delaySum R (ws :: rest) =
          paceDelay R ws.2 + delaySum R rest := by
        simp [delaySum]
      omega

/-- The total charged delay is within one nanosecond per transfer of the
ideal total `10^9 * bytes / R`. -/
theorem delaySum_charge (l : List (Int × Int)) : ∀ R : Int, 0 < R →
    (∀ ws ∈ l, goodStep ws) →
    nsPerSecond * sizeSum l + l.length ≤ R * (delaySum R l + l.length) := by
  induction l with
  | nil => intro R hR _; simp [sizeSum, delaySum]
  | cons ws rest ih =>
    intro R hR hgood
    obtain ⟨hw, hs, hrange⟩ := hgood ws (List.mem_cons_self ws rest)
    have h1 : nsPerSecond * ws.2 + 1 ≤ R * (paceDelay R ws.2 + 1) :=
      Int.add_one_le_iff.mpr (paceDelay_charge_lt R ws.2 hR hs hrange)
    have h2 := ih R hR (fun x hx => hgood x (List.mem_cons_of_mem _ hx))
    simp only [sizeSum, delaySum, List.map_cons, List.sum_cons,
      List.length_cons] at h2 ⊢
    push_cast
    nlinarith [h1, h2]

/-! ## Claims -/

/-- C1 counterexample: at rate 3 B/s, two back-to-back successful 1-byte reads
through a fresh wrapper complete 666666666 ns after the first call starts,
strictly less than the ideal `(1+1)/3` s `=` 666666666.6 ns (equivalently
`3 * elapsed < 10^9 * 2`): each charged delay is the floor of the ideal, so
the claimed exact lower bound fails by sub-nanosecond rounding. -/
theorem rate_bound_exact_fails :
    runTransfers ⟨⟨3, none⟩, 0⟩ [(0, 1), (0, 1)] =
        some ⟨⟨3, some 666666666⟩, 666666666⟩ ∧
      3 * (666666666 - 0) < nsPerSecond * sizeSum [((0:Int), (1:Int)), (0, 1)] := by
  refine ⟨by decide, by decide⟩

/-- C1 (amended): for a fresh wrapper at rate `R > 0` and any trace of
successful reads of non-negative sizes in the `int64`-representable range
(first call starting at `t0`, arbitrary non-negative caller waits before the
later calls), the modelled wall-clock time elapsed at completion of the last
transfer is at least the total charged delay `delaySum`, which itself is
within one nanosecond per transfer of the ideal `(s1+...+sn)/R`:
`R * (elapsed + n) > 10^9 * (s1+...+sn)`.  Prefixes (the k-th transfer of a
longer run) are covered by instantiating `l` with the prefix trace. -/
theorem read_sequence_rate_bound (R t0 s1 : Int) (l : List (Int × Int))
    (hR : 0 < R) (hs1 : goodStep (0, s1)) (hl : ∀ ws ∈ l, goodStep ws) :
    ∃ st2, runTransfers ⟨⟨R, none⟩, t0⟩ ((0, s1) :: l) = some st2 ∧
      delaySum R ((0, s1) :: l) ≤ st2.now - t0 ∧
      nsPerSecond * sizeSum ((0, s1) :: l) <
        R * (st2.now - t0 + (((0, s1) :: l).length : Int)) := by
  have hgood : ∀ ws ∈ (0, s1) :: l, goodStep ws := by
    intro ws hws
    rcases List.mem_cons.mp hws with h | h
    · exact h ▸ hs1
    · exact hl ws h
  have hfirst : runTransfers ⟨⟨R, none⟩, t0⟩ ((0, s1) :: l) =
      runTransfers ⟨⟨R, some t0⟩, t0⟩ ((0, s1) :: l) := by
    rw [runTransfers, runTransfers]
    have hts : transferStep ⟨⟨R, none⟩, t0⟩ (0, s1).1 (0, s1).2 =
        transferStep ⟨⟨R, some t0⟩, t0⟩ (0, s1).1 (0, s1).2 := by
      rw [transferStep_eq_pace, transferStep_eq_pace]
      simp [pace_none_eq]
    rw [hts]
  obtain ⟨st2, hrun, hpac, hnow, hclk⟩ :=
    runTransfers_spec ((0, s1) :: l) R t0 t0 hR le_rfl hgood
  have hcharge := delaySum_charge ((0, s1) :: l) R hR hgood
  refine ⟨st2, hfirst ▸ hrun, by omega, ?_⟩
  have hlenpos : (0:Int) < (((0, s1) :: l).length : Int) := by
    push_cast [List.length_cons]
    positivity
  have hmono : R * (delaySum R ((0, s1) :: l) + (((0, s1) :: l).length : Int)) ≤
      R * (st2.now - t0 + (((0, s1) :: l).length : Int)) := by
    apply mul_le_mul_of_nonneg_left _ hR.le
    omega
  linarith [le_trans hcharge hmono, hlenpos]

/-- C1 witness: the amended bound at rate 3, trace sizes 1 then 2. -/
theorem read_sequence_rate_bound_witness :
    (0:Int) < 3 ∧ goodStep (0, 1) ∧ (∀ ws ∈ [((0:Int), (2:Int))], goodStep ws) ∧
    (∃ st2, runTransfers ⟨⟨3, none⟩, 0⟩ ((0, 1) :: [(0, 2)]) = some st2 ∧
      delaySum 3 ((0, 1) :: [(0, 2)]) ≤ st2.now - 0 ∧
      nsPerSecond * sizeSum ((0, 1) :: [(0, 2)]) <
        3 * (st2.now - 0 + ((((0:Int), (1:Int)) :: [((0:Int), (2:Int))]).length : Int))) :=
  ⟨by norm_num, by decide, by decide,
    read_sequence_rate_bound 3 0 1 [(0, 2)] (by norm_num) (by decide) (by decide)⟩

/-- C2 counterexample: `NewReaderPacer`/`NewWriterPacer` accept a non-positive
rate without any error (their result is a fully formed wrapper holding that
rate), and the failure appears only at first use: the first successful `Read`
through a rate-0 wrapper hits the division by zero inside `pace`. -/
theorem construction_accepts_nonpositive_rate :
    NewReaderPacer 0 = ⟨⟨0, none⟩⟩ ∧
      NewWriterPacer (-1) = ⟨⟨-1, none⟩⟩ ∧
      readerRead (ε := Unit) (NewReaderPacer 0) 0 100 none = none :=
  ⟨rfl, rfl, rfl⟩

/-- C2 (amended): construction never fails and performs no validation for any
rate (the rate is stored as given and the clock left unset); the error for a
non-positive rate is deferred to first use, where rate 0 panics inside `pace`
(modelled as `none`). -/
theorem construction_never_validates :
    (∀ rate : Int, NewReaderPacer rate = ⟨⟨rate, none⟩⟩) ∧
      (∀ rate : Int, NewWriterPacer rate = ⟨⟨rate, none⟩⟩) ∧
      (∀ now cc : Int, pace ⟨0, none⟩ now cc = none) :=
  ⟨fun _ => rfl, fun _ => rfl, fun now cc => by simp [pace]⟩

/-- C3: when the underlying stream returns a non-nil error (end-of-stream
included), `Read` and `Write` return exactly the underlying `(cc, err)`
outcome, sleep for 0, and leave the whole `Pacer` (in particular
`Pacer.clock`) unmutated. -/
theorem readwrite_error_passthrough (ε : Type) (p : ReaderPacer)
    (q : WriterPacer) (now blen cc : Int) (e : ε) :
    readerRead p now cc (some e) = some (p, 0, cc, some e) ∧
      writerWrite q now blen cc (some e) = some (q, 0, cc, some e) :=
  ⟨rfl, rfl⟩

/-- For any nonzero rate, `pace` always produces a result. -/
theorem pace_succeeds (p : Pacer) (now cc : Int)
    (hR : p.bytesPerSecond ≠ 0) :
    ∃ p2 slept, pace p now cc = some (p2, slept) := by
  obtain ⟨R, clk⟩ := p
  exact ⟨⟨R, some (clk.getD now + paceDelay R cc)⟩,
    if now < clk.getD now + paceDelay R cc then
      clk.getD now + paceDelay R cc - now else 0,
    by simp [pace, hR]⟩

/-- C4: if, after adding the computed delay, the virtual clock is at or
behind `now`, `pace` sleeps 0 and leaves the clock at `previous + delay`
(it does not jump forward to `now`), preserving accumulated slack as burst
credit. -/
theorem pace_burst_credit (R c now cc : Int) (hR : 0 < R) (hcc : 0 ≤ cc)
    (hbehind : c + paceDelay R cc ≤ now) :
    pace ⟨R, some c⟩ now cc =
      some (⟨R, some (c + paceDelay R cc)⟩, 0) := by
  rw [pace_some R c now cc (ne_of_gt hR), if_neg (not_lt.mpr hbehind)]

/-- C4 witness: rate 1000 B/s, clock at 0, wall clock 1 s ahead; a 500-byte
transfer sleeps 0 and the clock stays at 0.5 s, behind `now`. -/
theorem pace_burst_credit_witness :
    (0:Int) < 1000 ∧ (0:Int) ≤ 500 ∧
      (0:Int) + paceDelay 1000 500 ≤ 1000000000 ∧
      pace ⟨1000, some 0⟩ 1000000000 500 =
        some (⟨1000, some (0 + paceDelay 1000 500)⟩, 0) :=
  ⟨by norm_num, by norm_num, by decide,
    pace_burst_credit 1000 0 1000000000 500 (by norm_num) (by norm_num)
      (by decide)⟩

/-- C5 counterexample: on a freshly constructed wrapper at 1000 B/s, the very
first `Read` returning 1000 bytes sleeps 10^9 ns `=` 1000 ms, not ~0: the
first transfer is charged its own delay. -/
theorem first_read_sleeps :
    readerRead (ε := Unit) (NewReaderPacer 1000) 0 1000 none =
        some (⟨⟨1000, some 1000000000⟩⟩, 1000000000, 1000, none) ∧
      (1000000000:Int) ≠ 0 :=
  ⟨by decide, by norm_num⟩

/-- C5 (amended): the first transfer on a fresh wrapper incurs no startup
cost beyond its own byte-count charge: `pace` initializes the clock to `now`
and then sleeps exactly `floor(10^9 * s / R)` ns, so a first 1000-byte read
at 1000 B/s completes with ~1000 ms (not ~0 ms) of added delay. -/
theorem pace_first_call (R t0 s : Int) (hR : 0 < R) (hs : 0 ≤ s)
    (hrange : nsPerSecond * s ≤ 2 ^ 63 - 1) :
    pace ⟨R, none⟩ t0 s =
      some (⟨R, some (t0 + nsPerSecond * s / R)⟩, nsPerSecond * s / R) := by
  have hd : paceDelay R s = nsPerSecond * s / R := paceDelay_eq R s hR hs hrange
  have hd0 : 0 ≤ paceDelay R s := paceDelay_nonneg R s hR hs hrange
  rw [pace_none_eq, pace_some R t0 t0 s (ne_of_gt hR), ite_slept_eq hd0, hd]

/-- C5 witness: first call at rate 1000 with 1000 bytes sleeps a full
second. -/
theorem pace_first_call_witness :
    (0:Int) < 1000 ∧ (0:Int) ≤ 1000 ∧
      nsPerSecond * 1000 ≤ 2 ^ 63 - 1 ∧
      pace ⟨1000, none⟩ 0 1000 =
        some (⟨1000, some (0 + nsPerSecond * 1000 / 1000)⟩,
          nsPerSecond * 1000 / 1000) :=
  ⟨by norm_num, by norm_num, by decide,
    pace_first_call 1000 0 1000 (by norm_num) (by norm_num) (by decide)⟩

/-- C6 counterexample: on a freshly constructed controller the clock is the
zero value, and a successful 0-byte transfer mutates it to `now` (here 5):
the virtual clock does not stay unchanged in every state. -/
theorem zero_bytes_initializes_clock :
    (NewReaderPacer 1000).pacer.clock = none ∧
      pace (NewReaderPacer 1000).pacer 5 0 = some (⟨1000, some 5⟩, 0) ∧
      some (5:Int) ≠ (none : Option Int) :=
  ⟨rfl, by decide, by decide⟩

/-- C6 (amended): a 0-byte transfer computes delay 0; with an initialized
clock not ahead of `now` (true in every state reachable through the wrapper)
it sleeps 0 and leaves the clock unchanged, while on a fresh controller it
sleeps 0 but initializes the clock to `now`. -/
theorem pace_zero_bytes (R c now : Int) (hR : R ≠ 0) (hc : c ≤ now) :
    pace ⟨R, some c⟩ now 0 = some (⟨R, some c⟩, 0) ∧
      pace ⟨R, none⟩ now 0 = some (⟨R, some now⟩, 0) := by
  constructor
  · rw [pace_some R c now 0 hR, paceDelay_zero, add_zero,
      if_neg (not_lt.mpr hc)]
  · rw [pace_none_eq, pace_some R now now 0 hR, paceDelay_zero, add_zero,
      if_neg (lt_irrefl now)]

/-- C6 witness: rate 1000, clock 7, wall clock 42. -/
theorem pace_zero_bytes_witness :
    ((1000:Int) ≠ 0) ∧ (7:Int) ≤ 42 ∧
      (pace ⟨1000, some 7⟩ 42 0 = some (⟨1000, some 7⟩, 0) ∧
        pace ⟨1000, none⟩ 42 0 = some (⟨1000, some 42⟩, 0)) :=
  ⟨by norm_num, by norm_num,
    pace_zero_bytes 1000 7 42 (by norm_num) (by norm_num)⟩

/-- C7 counterexample: with rate 1 B/s and the non-negative byte count
`cc = 10^10`, the product `int(time.Second) * cc` overflows a 64-bit `int`
to a negative delay, and the virtual clock moves strictly backward from 0 to
a negative instant, so unrestricted monotonicity fails. -/
theorem clock_decreases_on_overflow :
    pace ⟨1, some 0⟩ 0 10000000000 =
        some (⟨1, some (-8446744073709551616)⟩, 0) ∧
      (-8446744073709551616:Int) < 0 :=
  ⟨by decide, by norm_num⟩

/-- C7 (amended): for rate `R > 0` and any non-negative byte count whose
`10^9`-scaling is representable in a 64-bit signed integer, each `pace` call
leaves the virtual clock at `previous + delay` with `delay ≥ 0`, hence at a
value greater than or equal to its value before the call; monotonicity over
a whole lifetime follows call by call. -/
theorem pace_clock_monotone (R c now cc : Int) (hR : 0 < R) (hcc : 0 ≤ cc)
    (hrange : nsPerSecond * cc ≤ 2 ^ 63 - 1) :
    ∃ slept, pace ⟨R, some c⟩ now cc =
        some (⟨R, some (c + paceDelay R cc)⟩, slept) ∧
      c ≤ c + paceDelay R cc := by
  refine ⟨_, pace_some R c now cc (ne_of_gt hR), ?_⟩
  have h := paceDelay_nonneg R cc hR hcc hrange
  omega

/-- C7 witness: rate 2, clock 10, 3 bytes. -/
theorem pace_clock_monotone_witness :
    (0:Int) < 2 ∧ (0:Int) ≤ 3 ∧ nsPerSecond * 3 ≤ 2 ^ 63 - 1 ∧
      (∃ slept, pace ⟨2, some 10⟩ 0 3 =
          some (⟨2, some (10 + paceDelay 2 3)⟩, slept) ∧
        (10:Int) ≤ 10 + paceDelay 2 3) :=
  ⟨by norm_num, by norm_num, by decide,
    pace_clock_monotone 2 10 0 3 (by norm_num) (by norm_num) (by decide)⟩

/-- C8: for `R > 0` and `cc ≥ 0` with `10^9 * cc` representable in a 64-bit
signed integer, the delay of `pacer.go` line 31 equals the exact floor
`⌊10^9 * cc / R⌋` in nanoseconds (`/` is floor division on these
non-negative operands, and nanosecond resolution subsumes millisecond
precision), it is non-negative, and the wrapped product equals the exact
product, i.e. the computation does not overflow. -/
theorem paceDelay_exact (R cc : Int) (hR : 0 < R) (hcc : 0 ≤ cc)
    (hrange : nsPerSecond * cc ≤ 2 ^ 63 - 1) :
    paceDelay R cc = nsPerSecond * cc / R ∧
      goMul64 nsPerSecond cc = nsPerSecond * cc ∧
      0 ≤ paceDelay R cc :=
  ⟨paceDelay_eq R cc hR hcc hrange, goMul64_eq cc hcc hrange,
    paceDelay_nonneg R cc hR hcc hrange⟩

/-- C8 witness: 1000 bytes at 1000 B/s. -/
theorem paceDelay_exact_witness :
    (0:Int) < 1000 ∧ (0:Int) ≤ 1000 ∧
      nsPerSecond * 1000 ≤ 2 ^ 63 - 1 ∧
      (paceDelay 1000 1000 = nsPerSecond * 1000 / 1000 ∧
        goMul64 nsPerSecond 1000 = nsPerSecond * 1000 ∧
        0 ≤ paceDelay 1000 1000) :=
  ⟨by norm_num, by norm_num, by decide,
    paceDelay_exact 1000 1000 (by norm_num) (by norm_num) (by decide)⟩

/-- C9: when the underlying call succeeds with `cc` bytes, `Read`/`Write`
feed exactly `cc` to `pace` and return `(cc, nil)` with `pace`'s updated
state and sleep; for `Write`, the result is independent of the requested
length `len(b)`, so a partial write is charged only for the bytes actually
written. -/
theorem readwrite_success_paces (ε : Type) (p : ReaderPacer) (q : WriterPacer)
    (now blen blen2 cc : Int) (hp : p.pacer.bytesPerSecond ≠ 0)
    (hq : q.pacer.bytesPerSecond ≠ 0) :
    (∃ p2 slept, pace p.pacer now cc = some (p2, slept) ∧
        readerRead (ε := ε) p now cc none = some (⟨p2⟩, slept, cc, none)) ∧
      (∃ q2 slept, pace q.pacer now cc = some (q2, slept) ∧
        writerWrite (ε := ε) q now blen cc none =
          some (⟨q2⟩, slept, cc, none)) ∧
      writerWrite (ε := ε) q now blen cc none =
        writerWrite (ε := ε) q now blen2 cc none := by
  obtain ⟨p2, sp, hp2⟩ := pace_succeeds p.pacer now cc hp
  obtain ⟨q2, sq, hq2⟩ := pace_succeeds q.pacer now cc hq
  refine ⟨⟨p2, sp, hp2, ?_⟩, ⟨q2, sq, hq2, ?_⟩, rfl⟩
  · simp [readerRead, hp2]
  · simp [writerWrite, hq2]

/-- C9 witness: a reader at 1000 B/s and a writer at 500 B/s; a successful
250-byte write is paced the same whether the caller requested 250 or 9. -/
theorem readwrite_success_paces_witness :
    ((NewReaderPacer 1000).pacer.bytesPerSecond ≠ 0) ∧
      ((NewWriterPacer 500).pacer.bytesPerSecond ≠ 0) ∧
      ((∃ p2 slept, pace (NewReaderPacer 1000).pacer 0 250 =
            some (p2, slept) ∧
          readerRead (ε := Unit) (NewReaderPacer 1000) 0 250 none =
            some (⟨p2⟩, slept, 250, none)) ∧
        (∃ q2 slept, pace (NewWriterPacer 500).pacer 0 250 =
            some (q2, slept) ∧
          writerWrite (ε := Unit) (NewWriterPacer 500) 0 250 250 none =
            some (⟨q2⟩, slept, 250, none)) ∧
        writerWrite (ε := Unit) (NewWriterPacer 500) 0 250 250 none =
          writerWrite (ε := Unit) (NewWriterPacer 500) 0 9 250 none) :=
  ⟨by decide, by decide,
    readwrite_success_paces Unit (NewReaderPacer 1000) (NewWriterPacer 500)
      0 250 9 250 (by decide) (by decide)⟩

/-- C10: when the underlying `Read` returns `cc > 0` bytes together with a
non-nil error, the wrapper returns those bytes and that error, sleeps 0, and
hands back a wrapper state identical to the input state; since the `Pacer`
is the rate controller's only state, those bytes are charged neither on this
call nor on any later one. -/
theorem read_error_bytes_uncharged (ε : Type) (p : ReaderPacer)
    (now cc : Int) (e : ε) (hcc : 0 < cc) :
    readerRead p now cc (some e) = some (p, 0, cc, some e) := rfl

/-- C10 witness: 5 bytes delivered together with an error. -/
theorem read_error_bytes_uncharged_witness :
    (0:Int) < 5 ∧
      readerRead (ε := Unit) (NewReaderPacer 7) 3 5 (some ()) =
        some (NewReaderPacer 7, 0, 5, some ()) :=
  ⟨by norm_num,
    read_error_bytes_uncharged Unit (NewReaderPacer 7) 3 5 () (by norm_num)⟩
